import Mathlib

/-!
Verification of the supervisor/update subsystem of the comfy-mobile-ui
ComfyUI extension (launcher.py, launcher_service.py, update_service.py)
against its natural-language specification.

The Python code is shallowly embedded: every definition below is a direct
translation of the corresponding Python function, with OS effects
(filesystem, processes, sockets, wall-clock time) made explicit as inputs
and outputs.  File names carry the original identifiers where Lean allows.
-/

namespace ComfyLauncher

/-! ## Log buffer (launcher_service.py, `EnhancedExternalComfyUILauncher.log`)

The buffer is `self.log_buffer` (a Python list) with
`self.max_log_buffer = 200`.  `log` appends the new entry and then pops the
first (oldest) element when the length exceeds the capacity.  Entries are
dict records never mutated afterwards; we model them as an arbitrary type. -/

def maxLogBuffer : Nat := 200

/-- One `log` call's effect on the buffer:
`self.log_buffer.append(log_entry)` followed by
`if len(self.log_buffer) > self.max_log_buffer: self.log_buffer.pop(0)`. -/
def logAppend {α : Type} (buf : List α) (e : α) : List α :=
  let b := buf ++ [e]
  if maxLogBuffer < b.length then b.drop 1 else b

/-- The buffer contents after a sequence of `log` calls starting from the
initial empty buffer (`self.log_buffer = []`). -/
def logFold {α : Type} (msgs : List α) : List α :=
  msgs.foldl logAppend []

/-- Model of `get_recent_logs`: returns `self.log_buffer[-limit:]` when `limit > 0`,
otherwise the whole buffer. -/
def getRecentLogs {α : Type} (buf : List α) (limit : Int) : List α :=
  if 0 < limit then buf.drop (buf.length - limit.toNat) else buf

/-! ## Per-level counters (launcher_service.py, `log` statistics)

`self.log_stats = {'info': 0, 'warning': 0, 'error': 0, 'success': 0,
'debug': 0}`; each `log(message, level)` call executes
`if level in self.log_stats: self.log_stats[level] += 1
 else: self.log_stats['info'] += 1`. -/

structure LogStats where
  info : Nat
  warning : Nat
  error : Nat
  success : Nat
  debug : Nat
  deriving DecidableEq, Repr

def initLogStats : LogStats := ⟨0, 0, 0, 0, 0⟩

/-- The fixed key set of `self.log_stats`. -/
def logStatsKeys : List String := ["info", "warning", "error", "success", "debug"]

/-- Statistics update performed by one `log` call. -/
def logStatsUpdate (s : LogStats) (level : String) : LogStats :=
  if level = "info" then { s with info := s.info + 1 }
  else if level = "warning" then { s with warning := s.warning + 1 }
  else if level = "error" then { s with error := s.error + 1 }
  else if level = "success" then { s with success := s.success + 1 }
  else if level = "debug" then { s with debug := s.debug + 1 }
  else { s with info := s.info + 1 }

def counterSum (s : LogStats) : Nat :=
  s.info + s.warning + s.error + s.success + s.debug

/-- The statistics after a sequence of `log` calls with the given levels. -/
def foldStats (levels : List String) : LogStats :=
  levels.foldl logStatsUpdate initLogStats

/-! ## Dual-protocol listener (launcher_service.py, `DualProtocolServer.get_request`)

`get_request` accepts a socket; with no `ssl_context` it returns the plain
socket immediately (no peek).  Otherwise it peeks 6 bytes with `MSG_PEEK`;
if at least one byte arrived and the first is `0x16` it attempts
`wrap_socket` (TLS handshake), falling back to the plain socket when the
handshake raises; any other first byte is served plaintext without a
handshake attempt. -/

structure ConnResult where
  /-- whether the 6-byte `MSG_PEEK` was performed -/
  peeked : Bool
  /-- whether `wrap_socket` (the TLS server handshake) was attempted -/
  attemptedHandshake : Bool
  /-- whether the returned socket is TLS-wrapped -/
  tls : Bool
  deriving DecidableEq, Repr

/-- Model of `DualProtocolServer.get_request`, with the accepted connection
represented by the bytes the peek would return and by whether a handshake
attempt would succeed. -/
def getRequest (hasSslContext : Bool) (peekBytes : List Nat) (handshakeOk : Bool) :
    ConnResult :=
  if hasSslContext = false then
    ⟨false, false, false⟩
  else
    match peekBytes with
    | b :: _ =>
      if b = 0x16 then
        if handshakeOk then ⟨true, true, true⟩ else ⟨true, true, false⟩
      else ⟨true, false, false⟩
    | [] => ⟨true, false, false⟩

/-! ## Update service (update_service.py, `UpdateService`)

Zip archives are represented by their entry-name list (`zip_ref.namelist()`);
an entry name ending in a slash is a directory entry.  Extracted paths are
tracked as component lists. -/

/-- Longest common prefix of two character lists. -/
def lcp2 : List Char → List Char → List Char
  | a :: as, b :: bs => if a = b then a :: lcp2 as bs else []
  | _, _ => []

/-- Model of `os.path.commonprefix(file_list)`: the longest common *string* prefix of
all names (empty for an empty input).  Note it is character-wise, not
path-component-wise. -/
def commonPrefixStr : List String → String
  | [] => ""
  | s :: rest => ⟨rest.foldl (fun acc t => lcp2 acc t.data) s.data⟩

/-- Whether `p` is a string prefix of `s` (Python `s.startswith(p)`). -/
def strIsPrefixOf (p s : String) : Bool :=
  p.data.isPrefixOf s.data

/-- Python `s.lower()` (the strings compared in the code - hex digests,
log levels, launch arguments - are ASCII, where per-character lowering
coincides with `str.lower`). -/
def strLower (s : String) : String :=
  ⟨s.data.map Char.toLower⟩

/-- Occurrence of `needle` at the start of some suffix of the second list. -/
def subOccurs (needle : List Char) : List Char → Bool
  | [] => needle.isPrefixOf []
  | c :: rest => needle.isPrefixOf (c :: rest) || subOccurs needle rest

/-- Python's `needle in hay` substring test. -/
def strContains (hay needle : String) : Bool :=
  subOccurs needle.data hay.data

/-- Split a character list at every `/`. -/
def splitSlashAux : List Char → List Char → List (List Char)
  | [], acc => [acc.reverse]
  | c :: rest, acc =>
    if c = '/' then acc.reverse :: splitSlashAux rest []
    else splitSlashAux rest (c :: acc)

/-- Path components of an entry name, as `pathlib` normalizes them
(split on the separator, empty components dropped, so a trailing slash of
a directory entry disappears). -/
def pathComponents (s : String) : List String :=
  ((splitSlashAux s.data []).filter (fun c => c ≠ [])).map (fun c => ⟨c⟩)

/-- Whether the entry name denotes a directory entry (name ends in `/`). -/
def endsWithSlash (s : String) : Bool :=
  s.data.getLast? == some '/'

/-- The file entries of the archive (entries not ending in a slash), as
component lists.  `zip_ref.extractall(d)` materializes exactly these as
files under `d`. -/
def zipFiles (entries : List String) : List (List String) :=
  (entries.filter (fun e => ¬ endsWithSlash e)).map pathComponents

/-- Whether the path `p` is a directory of the extraction of `entries`:
either a proper component-prefix of some entry (an intermediate directory
created by `extractall`) or a directory entry itself. -/
def isDirOf (entries : List String) (p : List String) : Bool :=
  p ≠ [] && entries.any (fun e =>
    let c := pathComponents e
    (p.isPrefixOf c && p ≠ c) || (endsWithSlash e && p = c))

/-- The extraction step of `_download_task` (step 4, "Smart Extraction").
Returns `none` when the Python code raises (caught by the task's outer
`except`): in the hoisting branch, `actual_root = temp_extract_dir /
root_folder` must be a directory for `actual_root.iterdir()` to succeed.
On success, returns the staging directory's files (paths relative to the
staging root): in the hoisting branch these are the files under the root
folder with the root components stripped (files outside the string-prefix
directory are deleted together with the scratch directory by
`shutil.rmtree(temp_extract_dir)`); otherwise `extractall` preserves the
entry structure exactly. -/
def extractStep (entries : List String) : Option (List (List String)) :=
  let root_folder := commonPrefixStr entries
  if root_folder ≠ "" && entries.all (fun f => strIsPrefixOf root_folder f) then
    let r := pathComponents root_folder
    if isDirOf entries r then
      some (((zipFiles entries).filter (fun f => r.isPrefixOf f)).map
        (fun f => f.drop r.length))
    else none
  else
    some (zipFiles entries)

/-- The mutable fields of `UpdateService` together with the staging
directory contents it owns.  The staging directory is summarized by its
presence, its extracted files, and whether `update.zip` (the temporary
archive) and `_temp_extract` (the hoisting scratch directory) still exist
in it. -/
structure UpdState where
  is_downloading : Bool
  download_progress : Nat
  last_error : Option String
  stagingPresent : Bool
  stagingFiles : List (List String)
  stagingHasZip : Bool
  stagingHasTemp : Bool
  deriving DecidableEq, Repr

/-- Model of `staging_dir.exists() and any(staging_dir.iterdir())`. -/
def stagingNonempty (st : UpdState) : Bool :=
  st.stagingPresent &&
    (st.stagingFiles ≠ ([] : List (List String)) || st.stagingHasZip || st.stagingHasTemp)

/-- Model of `start_download`: rejects when a download is already in flight,
otherwise resets progress and error and launches the task.  Returns the
new state and the Python return value. -/
def startDownload (st : UpdState) : UpdState × Bool :=
  if st.is_downloading then (st, false)
  else ({ st with is_downloading := true, download_progress := 0, last_error := none }, true)

/-- Model of `_download_task`, after the streaming loop has run to completion: the
staging directory has been purged and recreated, `update.zip` has been
written into it and `calculatedHash` is the SHA-256 hex digest of the
received bytes.  Step 3 compares it case-insensitively against the
optional expected hash and raises `ValueError` on mismatch; step 4
extracts; then the archive is removed and the success fields are set.  Any
raise lands in the `except` block, which records `last_error` and clears
`is_downloading`. -/
def downloadTask (st : UpdState) (calculatedHash : String)
    (expectedHash : Option String) (entries : List String) : UpdState :=
  let st1 : UpdState :=
    { st with stagingPresent := true, stagingFiles := [],
              stagingHasZip := true, stagingHasTemp := false,
              download_progress := 100 }
  let hashMismatch :=
    match expectedHash with
    | some exp => strLower calculatedHash != strLower exp
    | none => false
  if hashMismatch then
    { st1 with last_error := some "Integrity check failed", is_downloading := false }
  else
    match extractStep entries with
    | some files =>
      { st1 with stagingFiles := files, stagingHasZip := false,
                 is_downloading := false, download_progress := 100,
                 last_error := none }
    | none =>
      { st1 with stagingHasTemp := true,
                 last_error := some "extraction error", is_downloading := false }

/-- The derived `status` string of `get_update_status`. -/
def getUpdateStatus (st : UpdState) : String :=
  if st.last_error.isSome then "error"
  else if st.is_downloading then "downloading"
  else if stagingNonempty st then
    if st.stagingHasZip then "downloading" else "ready_to_restart"
  else "idle"

/-! ## Process controller (launcher_service.py, `start_comfyui`)

`start_comfyui` builds `cmd = [python] + self.comfyui_args`, then refuses
with `return False` when `any('watchdog' in str(arg).lower() for arg in
self.comfyui_args)`, before any `Popen`.  Otherwise it spawns the process
and installs `self.comfyui_process`. -/

/-- The recursion guard's per-argument test: `'watchdog' in str(arg).lower()`. -/
def argHasWatchdog (arg : String) : Bool :=
  strContains (strLower arg) "watchdog"

/-- The claim's notion of "a reference to the supervisor's own script":
the supervisor runs as `launcher_service.py`
(`self.launcher_script_path = Path(__file__).parent / "launcher_service.py"`
in launcher.py), so an argument references it when it mentions that file
name. -/
def referencesSupervisorScript (arg : String) : Bool :=
  strContains arg "launcher_service.py"

structure StartResult where
  /-- the boolean `start_comfyui` returns -/
  ok : Bool
  /-- whether the `subprocess.Popen` call was reached -/
  spawned : Bool
  /-- whether `self.comfyui_process` was installed -/
  handleSet : Bool
  deriving DecidableEq, Repr

/-- Model of `start_comfyui` on the computed argument list (spawn itself assumed not
to raise; an OS-level spawn failure is out of scope of the guard). -/
def startComfyui (comfyuiArgs : List String) : StartResult :=
  if comfyuiArgs.any argHasWatchdog then ⟨false, false, false⟩
  else ⟨true, true, true⟩

/-! ## Restart orchestrator (launcher_service.py, `restart_comfyui`)

Wall-clock time is modeled in poll steps: the responsiveness wait loops
`while time.time() - wait_start < max_wait` with `max_wait = 45` and
`time.sleep(2)` per iteration, so in idealized timing the elapsed time
after `n` iterations is `2 * n` and the loop body runs for
`n = 0, 1, ..., 22` (elapsed `0, 2, ..., 44`), performing its `n+1`-st
poll after the sleep.  The process state observed by the `k`-th poll
(`poll()` / `is_comfyui_responsive()`) is the environment `env k`; the
post-loop aliveness check is one further poll. -/

structure ProcPoll where
  /-- `self.comfyui_process.poll() is not None` -/
  exited : Bool
  /-- `self.is_comfyui_responsive()` -/
  responsive : Bool

/-- Diagnostics captured when the process exits within the settle window:
the tail of `comfyui_output.log`. -/
inductive ExitDiag where
  | tail (s : String)
  | emptyLog
  | noFile
  deriving DecidableEq, Repr

inductive RestartOutcome where
  /-- `start_comfyui()` returned failure -/
  | startFailed
  /-- non-null exit code within the 2-unit settle window -/
  | exitedImmediately (diag : ExitDiag)
  /-- a poll found the worker responsive -/
  | success
  /-- the process exited during the responsiveness wait -/
  | diedDuringStartup
  /-- wait exhausted, process still alive (soft success with warning) -/
  | exhaustedAlive
  /-- wait exhausted, process no longer alive -/
  | exhaustedDead
  deriving DecidableEq, Repr

/-- The boolean `restart_comfyui` returns for each outcome. -/
def restartSuccess : RestartOutcome → Bool
  | .success => true
  | .exhaustedAlive => true
  | _ => false

def maxWait : Nat := 45
def pollInterval : Nat := 2

/-- The number of loop-body executions of
`while time.time() - wait_start < max_wait: time.sleep(2); ...` under
idealized timing: the body runs for elapsed times `0, 2, ..., 44`, i.e.
`⌈45 / 2⌉ = 23` times. -/
def maxPolls : Nat := (maxWait + pollInterval - 1) / pollInterval

/-- The responsiveness wait loop of `restart_comfyui` (step 5), with
`fuel` loop-body executions left and `n` polls already made: each body
sleeps and polls; a non-null `poll()` fails with "died during startup", a
responsive probe succeeds; once the window is exhausted the final
aliveness check (one further poll) decides between the soft success and
failure. -/
def waitResponsiveGo (env : Nat → ProcPoll) (n : Nat) : Nat → RestartOutcome
  | 0 => if (env (n + 1)).exited then .exhaustedDead else .exhaustedAlive
  | fuel + 1 =>
    let s := env (n + 1)
    if s.exited then .diedDuringStartup
    else if s.responsive then .success
    else waitResponsiveGo env (n + 1) fuel

/-- The whole responsiveness wait: `maxPolls` iterations from poll 1. -/
def waitResponsive (env : Nat → ProcPoll) : RestartOutcome :=
  waitResponsiveGo env 0 maxPolls

/-- Model of `output[-500:]`: the last `n` characters of a string. -/
def strTakeRight (n : Nat) (s : String) : String :=
  ⟨s.data.drop (s.data.length - n)⟩

/-- The diagnostics logged when the settle-window check finds the process
exited: the content of `comfyui_output.log` is read and its last 500
characters are logged, with dedicated messages for an empty or missing
file. -/
def settleDiag (logContent : Option String) : ExitDiag :=
  match logContent with
  | none => .noFile
  | some out => if out = "" then .emptyLog else .tail (strTakeRight 500 out)

/-- Model of `restart_comfyui` from the start step on (steps 3-5; the preceding stop
and fixed delay do not affect the outcome): `startOk` is the result of
`start_comfyui()`; `settleExit` is whether `poll()` is non-null after the
2-unit settle sleep; `logContent` is the redirected output log's content at
that moment; `env` drives the responsiveness wait. -/
def restartComfyui (startOk : Bool) (settleExit : Bool)
    (logContent : Option String) (env : Nat → ProcPoll) : RestartOutcome :=
  if startOk then
    if settleExit then .exitedImmediately (settleDiag logContent)
    else waitResponsive env
  else .startFailed

/-! ## Bootstrap update (launcher.py, `perform_bootstrap_update`)

Directory trees are finite labelled trees; a directory listing is an
association list whose order is the order `Path.iterdir()` yields the
entries (filesystem-dependent, so it is an input of the model).  The
installation root (`extension_root`) and the staging directory
(`.update_staging`) are each a listing of top-level entries. -/

inductive FsNode where
  | file (content : String)
  | dir (entries : List (String × FsNode))

/-- First entry with the given name (names in a real directory are unique,
but the model does not require it). -/
def lookupFs (root : List (String × FsNode)) (name : String) : Option FsNode :=
  (root.find? (fun p => p.1 == name)).map (fun p => p.2)

/-- Replace the entry `name` by `v`, or append it when absent. -/
def setFs : List (String × FsNode) → String → FsNode → List (String × FsNode)
  | [], name, v => [(name, v)]
  | p :: rest, name, v =>
    if p.1 = name then (name, v) :: rest else p :: setFs rest name v

/-- One iteration of the bootstrap copy loop over a staging item.
`none` models the Python call raising (which aborts the whole `try`):
`shutil.copy2` raises on a directory source, and `shutil.rmtree` raises on
a plain-file target.  `shutil.copy2(src, dst)` with `dst` an existing
directory copies the file *into* it under the source's base name. -/
def applyItem (root : List (String × FsNode)) (name : String) (v : FsNode) :
    Option (List (String × FsNode)) :=
  if name = "version.json" then
    -- shutil.copy2(item, extension_root / "version.json")
    match v with
    | .dir _ => none
    | .file c =>
      match lookupFs root name with
      | some (.dir es) => some (setFs root name (.dir (setFs es name (.file c))))
      | _ => some (setFs root name (.file c))
  else
    match v with
    | .dir _ =>
      -- if target_dir.exists(): shutil.rmtree(target_dir); shutil.copytree
      match lookupFs root name with
      | some (.file _) => none
      | _ => some (setFs root name v)
    | .file c =>
      -- shutil.copy2(item, target_file)
      match lookupFs root name with
      | some (.dir es) => some (setFs root name (.dir (setFs es name (.file c))))
      | _ => some (setFs root name v)

/-- An item whose copy neither raises nor lands inside an existing
directory: the staged `version.json` is a plain file, and the staged kind
matches any existing destination kind. -/
def cleanItem (root : List (String × FsNode)) (it : String × FsNode) : Bool :=
  match it.2, lookupFs root it.1 with
  | .dir _, some (.file _) => false
  | .file _, some (.dir _) => false
  | .dir _, _ => it.1 != "version.json"
  | .file _, _ => true

/-- The `for item in staging_dir.iterdir()` loop: copies items in iteration
order, returning the resulting root, the names copied in order, and
whether the loop completed without raising (a raise keeps the partial
root). -/
def applyLoop : List (String × FsNode) → List (String × FsNode) →
    List (String × FsNode) × List String × Bool
  | [], root => (root, [], true)
  | it :: rest, root =>
    match applyItem root it.1 it.2 with
    | some r2 =>
      let res := applyLoop rest r2
      (res.1, it.1 :: res.2.1, res.2.2)
    | none => (root, [], false)

/-- Model of the marker check `(staging_dir / "version.json").exists()`. -/
def hasMarker (items : List (String × FsNode)) : Bool :=
  items.any (fun p => p.1 == "version.json")

/-- The installation root together with the staging directory (`none` when
`.update_staging` does not exist). -/
structure BootFs where
  root : List (String × FsNode)
  staging : Option (List (String × FsNode))

/-- Model of `perform_bootstrap_update`: with no staging directory, or with the
`version.json` marker missing, nothing is touched.  Otherwise every item
is copied over the installation root in iteration order and the staging
directory is deleted; an exception mid-loop keeps the partial root and the
staging directory (the `except` block only logs).  Also returns the trace
of copied entry names in copy order. -/
def performBootstrapUpdate (st : BootFs) : BootFs × List String :=
  match st.staging with
  | none => (st, [])
  | some items =>
    if hasMarker items then
      let res := applyLoop items st.root
      if res.2.2 then (⟨res.1, none⟩, res.2.1)
      else (⟨res.1, some items⟩, res.2.1)
    else (st, [])

/-! ## Theorems -/

/-! ### Claim C1 - bootstrap-apply step -/

theorem lookupFs_cons (p : String × FsNode) (rest : List (String × FsNode))
    (m : String) :
    lookupFs (p :: rest) m = if p.1 = m then some p.2 else lookupFs rest m := by
  by_cases h : p.1 = m
  · rw [lookupFs, List.find?_cons_of_pos _ (by simp [h]), if_pos h]
    rfl
  · rw [lookupFs, List.find?_cons_of_neg _ (by simp [h]), if_neg h]
    rfl

theorem lookupFs_setFs (root : List (String × FsNode)) (n : String) (v : FsNode)
    (m : String) :
    lookupFs (setFs root n v) m = if m = n then some v else lookupFs root m := by
  induction root with
  | nil =>
    show lookupFs [(n, v)] m = _
    rw [lookupFs_cons]
    by_cases h : m = n
    · rw [if_pos (h ▸ rfl), if_pos h]
    · rw [if_neg (fun hh : n = m => h hh.symm), if_neg h]
  | cons p rest ih =>
    show lookupFs (if p.1 = n then (n, v) :: rest else p :: setFs rest n v) m = _
    by_cases hp : p.1 = n
    · rw [if_pos hp, lookupFs_cons]
      by_cases h : m = n
      · simp [h]
      · rw [if_neg (fun hh : n = m => h hh.symm), if_neg h, lookupFs_cons,
          if_neg (by rw [hp]; exact fun hh => h hh.symm)]
    · rw [if_neg hp, lookupFs_cons]
      by_cases hpm : p.1 = m
      · rw [if_pos hpm, if_neg (fun hh : m = n => hp (hpm.trans hh)),
          lookupFs_cons, if_pos hpm]
      · rw [if_neg hpm, ih, lookupFs_cons, if_neg hpm]

theorem applyItem_clean (root : List (String × FsNode)) (it : String × FsNode)
    (h : cleanItem root it = true) :
    applyItem root it.1 it.2 = some (setFs root it.1 it.2) := by
  obtain ⟨n, v⟩ := it
  by_cases hn : n = "version.json"
  · subst hn
    cases v with
    | file c =>
      cases hl : lookupFs root "version.json" with
      | none => simp [applyItem, hl]
      | some w =>
        cases w with
        | file d => simp [applyItem, hl]
        | dir es => simp [cleanItem, hl] at h
    | dir es =>
      cases hl : lookupFs root "version.json" with
      | none => simp [cleanItem, hl] at h
      | some w =>
        cases w with
        | file d => simp [cleanItem, hl] at h
        | dir es2 => simp [cleanItem, hl] at h
  · cases v with
    | file c =>
      cases hl : lookupFs root n with
      | none => simp [applyItem, hn, hl]
      | some w =>
        cases w with
        | file d => simp [applyItem, hn, hl]
        | dir es => simp [cleanItem, hl] at h
    | dir es =>
      cases hl : lookupFs root n with
      | none => simp [applyItem, hn, hl]
      | some w =>
        cases w with
        | file d => simp [cleanItem, hl] at h
        | dir es2 => simp [applyItem, hn, hl]

theorem cleanItem_congr (r1 r2 : List (String × FsNode)) (it : String × FsNode)
    (h : lookupFs r1 it.1 = lookupFs r2 it.1) :
    cleanItem r1 it = cleanItem r2 it := by
  unfold cleanItem
  rw [h]

theorem applyLoop_clean (items : List (String × FsNode)) : ∀ root,
    (∀ it ∈ items, cleanItem root it = true) →
    (items.map Prod.fst).Nodup →
    (applyLoop items root).2.2 = true ∧
    (applyLoop items root).2.1 = items.map Prod.fst ∧
    (∀ it ∈ items, lookupFs (applyLoop items root).1 it.1 = some it.2) ∧
    (∀ m, m ∉ items.map Prod.fst → lookupFs (applyLoop items root).1 m = lookupFs root m) := by
  induction items with
  | nil => intro root _ _; simp [applyLoop]
  | cons it rest ih =>
    intro root hclean hnodup
    have hit : cleanItem root it = true := hclean it (by simp)
    have happ := applyItem_clean root it hit
    rw [List.map_cons] at hnodup
    have hnotin : it.1 ∉ rest.map Prod.fst := (List.nodup_cons.mp hnodup).1
    have hnodup2 : (rest.map Prod.fst).Nodup := (List.nodup_cons.mp hnodup).2
    have hclean2 : ∀ it2 ∈ rest, cleanItem (setFs root it.1 it.2) it2 = true := by
      intro it2 hm
      have hne : it2.1 ≠ it.1 := by
        intro he
        exact hnotin (he ▸ List.mem_map_of_mem Prod.fst hm)
      rw [cleanItem_congr (setFs root it.1 it.2) root it2 (by
        rw [lookupFs_setFs]; simp [hne])]
      exact hclean it2 (by simp [hm])
    have ihres := ih (setFs root it.1 it.2) hclean2 hnodup2
    have hloop : applyLoop (it :: rest) root =
        ((applyLoop rest (setFs root it.1 it.2)).1,
         it.1 :: (applyLoop rest (setFs root it.1 it.2)).2.1,
         (applyLoop rest (setFs root it.1 it.2)).2.2) := by
      simp [applyLoop, happ]
    refine ⟨by rw [hloop]; exact ihres.1, by rw [hloop]; simp [ihres.2.1], ?_, ?_⟩
    · intro it2 hm
      rw [hloop]
      simp only
      rcases List.mem_cons.mp hm with he | hm2
      · subst he
        rw [ihres.2.2.2 it2.1 hnotin, lookupFs_setFs]
        simp
      · exact ihres.2.2.1 it2 hm2
    · intro m hm
      have hm1 : m ≠ it.1 := by simp at hm; exact fun he => (he ▸ hm.1) rfl
      have hm2 : m ∉ rest.map Prod.fst := by simp at hm ⊢; exact hm.2
      rw [hloop]
      simp only
      rw [ihres.2.2.2 m hm2, lookupFs_setFs]
      simp [hm1]

/-- C1: the claim is FALSE as stated: `perform_bootstrap_update` copies
`version.json` at its position in the `iterdir()` iteration order, not
last among all entries.  Concrete input: a staging directory whose
iteration yields `version.json` first and `a.py` second; the marker is
present, yet the copy trace ends with `a.py`, not `version.json`. -/
theorem C1_version_json_not_last_counterexample :
    hasMarker [("version.json", FsNode.file "v"), ("a.py", FsNode.file "x")] = true ∧
    (performBootstrapUpdate
      ⟨[], some [("version.json", FsNode.file "v"), ("a.py", FsNode.file "x")]⟩).2 =
      ["version.json", "a.py"] ∧
    (performBootstrapUpdate
      ⟨[], some [("version.json", FsNode.file "v"), ("a.py", FsNode.file "x")]⟩).2.getLast?
      ≠ some "version.json" := by
  refine ⟨by decide, by decide, by decide⟩

/-- C1 (amended): for every staging directory with the `version.json`
marker (top-level names distinct, each staged entry's kind compatible with
the destination so that no copy raises), the bootstrap copies every
top-level entry over the corresponding path in the installation root in
directory-iteration order - `version.json` at its iteration position, not
necessarily last - and then deletes the staging directory; a staging
directory lacking the marker, or an absent staging directory, leaves
everything unchanged. -/
theorem C1_bootstrap_amended (root items : List (String × FsNode)) :
    (hasMarker items = true →
      (∀ it ∈ items, cleanItem root it = true) →
      (items.map Prod.fst).Nodup →
      (performBootstrapUpdate ⟨root, some items⟩).1.staging = none ∧
      (performBootstrapUpdate ⟨root, some items⟩).2 = items.map Prod.fst ∧
      (∀ it ∈ items,
        lookupFs (performBootstrapUpdate ⟨root, some items⟩).1.root it.1 = some it.2)) ∧
    (hasMarker items = false →
      performBootstrapUpdate ⟨root, some items⟩ = (⟨root, some items⟩, [])) ∧
    performBootstrapUpdate ⟨root, none⟩ = (⟨root, none⟩, []) := by
  refine ⟨?_, ?_, by simp [performBootstrapUpdate]⟩
  · intro hm hclean hnodup
    have h := applyLoop_clean items root hclean hnodup
    have hperf : performBootstrapUpdate ⟨root, some items⟩ =
        (⟨(applyLoop items root).1, none⟩, (applyLoop items root).2.1) := by
      simp [performBootstrapUpdate, hm, h.1]
    refine ⟨by rw [hperf], by rw [hperf]; exact h.2.1, ?_⟩
    intro it hmem
    rw [hperf]
    exact h.2.2.1 it hmem
  · intro hm
    simp [performBootstrapUpdate, hm]

/-- C1 witness: a concrete run with marker present (a directory entry and
the marker) and one with the marker absent. -/
theorem C1_bootstrap_amended_witness :
    (performBootstrapUpdate
      ⟨[("old.py", FsNode.file "o")],
       some [("sub", FsNode.dir [("f", FsNode.file "1")]),
             ("version.json", FsNode.file "2")]⟩).1.staging = none ∧
    (performBootstrapUpdate
      ⟨[("old.py", FsNode.file "o")],
       some [("sub", FsNode.dir [("f", FsNode.file "1")]),
             ("version.json", FsNode.file "2")]⟩).2 = ["sub", "version.json"] ∧
    lookupFs (performBootstrapUpdate
      ⟨[("old.py", FsNode.file "o")],
       some [("sub", FsNode.dir [("f", FsNode.file "1")]),
             ("version.json", FsNode.file "2")]⟩).1.root "version.json" =
      some (FsNode.file "2") ∧
    performBootstrapUpdate ⟨[("old.py", FsNode.file "o")], some [("b", FsNode.file "y")]⟩ =
      (⟨[("old.py", FsNode.file "o")], some [("b", FsNode.file "y")]⟩, []) := by
  have h := C1_bootstrap_amended [("old.py", FsNode.file "o")]
    [("sub", FsNode.dir [("f", FsNode.file "1")]), ("version.json", FsNode.file "2")]
  have h1 := h.1 (by decide) (by decide) (by decide)
  have h2 := (C1_bootstrap_amended [("old.py", FsNode.file "o")]
    [("b", FsNode.file "y")]).2.1 (by decide)
  exact ⟨h1.1, h1.2.1.trans (by decide), h1.2.2 ("version.json", FsNode.file "2")
    (by simp), h2⟩

/-! ### Claim C2 - recursive self-invocation guard -/

/-- C2: the claim is FALSE as stated: the guard in `start_comfyui` tests
each argument for the substring `'watchdog'` (case-insensitively), not for
a reference to the supervisor's own script (`launcher_service.py`).  An
argument list that references the supervisor script passes the guard, the
`Popen` call is reached and the worker-process handle is installed. -/
theorem C2_self_reference_counterexample :
    ["main.py", "/ext/launcher_service.py"].any referencesSupervisorScript = true ∧
    startComfyui ["main.py", "/ext/launcher_service.py"] = ⟨true, true, true⟩ := by
  refine ⟨by decide, by decide⟩

/-- C2 (amended): for every computed launch-argument list in which some
argument contains the substring `'watchdog'` (case-insensitively),
`start_comfyui` returns failure before any `Popen` call, leaving the
worker-process handle unset; an argument referencing the supervisor's
actual script name does not trigger the guard. -/
theorem C2_watchdog_guard (args : List String)
    (h : args.any argHasWatchdog = true) :
    startComfyui args = ⟨false, false, false⟩ := by
  simp [startComfyui, h]

/-- C2 witness: the guard fires on a concrete argument list containing
`Watchdog` (case-insensitive). -/
theorem C2_watchdog_guard_witness :
    ["main.py", "/x/Watchdog.py"].any argHasWatchdog = true ∧
    startComfyui ["main.py", "/x/Watchdog.py"] = ⟨false, false, false⟩ :=
  ⟨by decide, C2_watchdog_guard ["main.py", "/x/Watchdog.py"] (by decide)⟩

/-! ### Claim C3 - archive extraction -/

theorem lcp2_prefix_left (a : List Char) : ∀ b, lcp2 a b <+: a := by
  induction a with
  | nil => intro b; cases b <;> simp [lcp2]
  | cons x xs ih =>
    intro b
    cases b with
    | nil => simp [lcp2]
    | cons y ys =>
      by_cases h : x = y
      · rw [lcp2, if_pos h]
        exact List.cons_prefix_cons.mpr ⟨rfl, ih ys⟩
      · simp [lcp2, h]

theorem lcp2_prefix_right (a : List Char) : ∀ b, lcp2 a b <+: b := by
  induction a with
  | nil => intro b; cases b <;> simp [lcp2]
  | cons x xs ih =>
    intro b
    cases b with
    | nil => simp [lcp2]
    | cons y ys =>
      by_cases h : x = y
      · subst h
        rw [lcp2, if_pos rfl]
        exact List.cons_prefix_cons.mpr ⟨rfl, ih ys⟩
      · simp [lcp2, h]

theorem foldl_lcp2_common (l : List String) : ∀ acc : List Char,
    (l.foldl (fun acc t => lcp2 acc t.data) acc) <+: acc ∧
    ∀ t ∈ l, (l.foldl (fun acc t => lcp2 acc t.data) acc) <+: t.data := by
  induction l with
  | nil => intro acc; simp
  | cons t ts ih =>
    intro acc
    have h := ih (lcp2 acc t.data)
    refine ⟨h.1.trans (lcp2_prefix_left acc t.data), ?_⟩
    intro t2 hm
    rcases List.mem_cons.mp hm with he | hm2
    · exact he ▸ h.1.trans (lcp2_prefix_right acc t.data)
    · exact h.2 t2 hm2

/-- The longest common string prefix computed by `os.path.commonprefix` is
a prefix of every name of the list, so the redundant
`not any(not f.startswith(root_folder) ...)` check always passes. -/
theorem commonPrefixStr_isPrefixOf (entries : List String) :
    ∀ e ∈ entries, strIsPrefixOf (commonPrefixStr entries) e = true := by
  cases entries with
  | nil => intro e he; simp at he
  | cons s rest =>
    intro e he
    have h := foldl_lcp2_common rest s.data
    rcases List.mem_cons.mp he with he2 | hm
    · subst he2
      rw [strIsPrefixOf, List.isPrefixOf_iff_prefix]
      exact h.1
    · rw [strIsPrefixOf, List.isPrefixOf_iff_prefix]
      exact h.2 e hm

/-- C3: the claim is FALSE as stated: `os.path.commonprefix` is a
character-wise common prefix, so for the archive
`["root/ab", "root/ac"]` - in which every entry starts with the common
root folder prefix `root/` - the computed prefix is the non-directory
path `root/a`, `actual_root.iterdir()` raises, and the download task ends
in an error with nothing hoisted and the temporary archive still in
staging, instead of extracting with the root folder hoisted away. -/
theorem C3_commonprefix_counterexample :
    ["root/ab", "root/ac"].all (fun e => strIsPrefixOf "root/" e) = true ∧
    commonPrefixStr ["root/ab", "root/ac"] = "root/a" ∧
    extractStep ["root/ab", "root/ac"] = none ∧
    downloadTask ⟨true, 0, none, false, [], false, false⟩ "h" none ["root/ab", "root/ac"] =
      ⟨false, 100, some "extraction error", true, [], true, true⟩ := by
  refine ⟨by decide, by decide, by decide, by decide⟩

/-- C3 (amended): extraction hoists exactly when the longest common
*string* prefix of all entry names is nonempty; when that prefix, read as
a path, names a directory of the archive (as for GitHub-style zips that
contain the root folder entry itself, e.g. every common-prefix `root/`
archive listing `root/`), the files under it are hoisted into the staging
root with the prefix components stripped; when the entries share no
nonempty common string prefix, they are extracted directly into the
staging root preserving the original relative structure exactly; in both
successful cases the temporary archive file is removed afterwards
(`stagingHasZip = false` in the resulting download-task state). -/
theorem C3_extraction_amended (entries : List String) :
    (isDirOf entries (pathComponents (commonPrefixStr entries)) = true →
      extractStep entries =
        some (((zipFiles entries).filter
            (fun f => (pathComponents (commonPrefixStr entries)).isPrefixOf f)).map
          (fun f => f.drop (pathComponents (commonPrefixStr entries)).length))) ∧
    (commonPrefixStr entries = "" →
      extractStep entries = some (zipFiles entries)) ∧
    (∀ st ch files, extractStep entries = some files →
      downloadTask st ch none entries =
        { st with is_downloading := false, download_progress := 100,
                  last_error := none, stagingPresent := true,
                  stagingFiles := files, stagingHasZip := false,
                  stagingHasTemp := false }) := by
  refine ⟨?_, ?_, ?_⟩
  · intro hdir
    have hne : commonPrefixStr entries ≠ "" := by
      intro he
      rw [he] at hdir
      simp [pathComponents, splitSlashAux, isDirOf] at hdir
    have hall : entries.all (fun f => strIsPrefixOf (commonPrefixStr entries) f) = true := by
      rw [List.all_eq_true]
      intro e he
      exact commonPrefixStr_isPrefixOf entries e he
    simp [extractStep, hne, hall, hdir]
  · intro he
    simp [extractStep, he]
  · intro st ch files hflat
    cases st
    simp [downloadTask, hflat]

/-- C3 witness: a GitHub-style archive with the root directory entry is
hoisted one level; a mixed flat archive is extracted as-is; both download
runs end with the archive removed. -/
theorem C3_extraction_amended_witness :
    extractStep ["root/", "root/a", "root/b/c"] = some [["a"], ["b", "c"]] ∧
    extractStep ["a", "b/c"] = some [["a"], ["b", "c"]] ∧
    downloadTask ⟨true, 0, none, false, [], false, false⟩ "h" none ["root/", "root/a", "root/b/c"] =
      ⟨false, 100, none, true, [["a"], ["b", "c"]], false, false⟩ := by
  have h1 := (C3_extraction_amended ["root/", "root/a", "root/b/c"]).1 (by decide)
  have h2 := (C3_extraction_amended ["a", "b/c"]).2.1 (by decide)
  have h3 := (C3_extraction_amended ["root/", "root/a", "root/b/c"]).2.2
    ⟨true, 0, none, false, [], false, false⟩ "h" [["a"], ["b", "c"]]
    (h1.trans (by decide))
  exact ⟨h1.trans (by decide), h2.trans (by decide), h3.trans (by decide)⟩

/-! ### Claim C4 - bounded log buffer -/

theorem foldl_logAppend_eq {α : Type} (msgs : List α) : ∀ buf : List α,
    buf.length ≤ maxLogBuffer →
    List.foldl logAppend buf msgs =
      (buf ++ msgs).drop (buf.length + msgs.length - maxLogBuffer) := by
  induction msgs with
  | nil =>
    intro buf h
    simp [Nat.sub_eq_zero_of_le (by simpa using h)]
  | cons m ms ih =>
    intro buf h
    rw [List.foldl_cons]
    by_cases h2 : buf.length = maxLogBuffer
    · have happ : logAppend buf m = (buf ++ [m]).drop 1 := by
        rw [logAppend]
        rw [if_pos (by simp [h2])]
      rw [happ, ih _ (by simp [h2])]
      have hlen : ((buf ++ [m]).drop 1).length = maxLogBuffer := by simp [h2]
      rw [hlen, Nat.add_sub_cancel_left,
        ← List.drop_append_of_le_length (by simp : 1 ≤ (buf ++ [m]).length),
        List.drop_drop]
      have hassoc : (buf ++ [m]) ++ ms = buf ++ m :: ms := by simp
      rw [hassoc]
      have hidx : buf.length + (m :: ms).length - maxLogBuffer = 1 + ms.length := by
        simp only [List.length_cons]
        omega
      rw [hidx]
    · have hlt : buf.length < maxLogBuffer := lt_of_le_of_ne h h2
      have happ : logAppend buf m = buf ++ [m] := by
        rw [logAppend]
        rw [if_neg (by simp; omega)]
      rw [happ, ih _ (by simp; omega)]
      have hassoc : (buf ++ [m]) ++ ms = buf ++ m :: ms := by simp
      rw [hassoc]
      have hidx : (buf ++ [m]).length + ms.length - maxLogBuffer =
          buf.length + (m :: ms).length - maxLogBuffer := by
        simp only [List.length_append, List.length_cons, List.length_nil]
        omega
      rw [hidx]

/-- C4: for every sequence of appended entries, the buffer never exceeds
its capacity of 200; after more than 200 appends, the buffer holds exactly
the last 200 entries, in append (oldest-first) order, each equal to the
entry originally appended (never mutated), and `get_recent_logs` with
limit 200 retrieves exactly them. -/
theorem C4_log_buffer_bound {α : Type} (msgs : List α) :
    (logFold msgs).length ≤ maxLogBuffer ∧
    (maxLogBuffer < msgs.length →
      logFold msgs = msgs.drop (msgs.length - maxLogBuffer) ∧
      (logFold msgs).length = maxLogBuffer ∧
      getRecentLogs (logFold msgs) (maxLogBuffer : Int) =
        msgs.drop (msgs.length - maxLogBuffer)) := by
  have hf : logFold msgs = msgs.drop (msgs.length - maxLogBuffer) := by
    have h := foldl_logAppend_eq msgs ([] : List α) (by simp)
    simpa [logFold] using h
  have hlen : (logFold msgs).length = msgs.length - (msgs.length - maxLogBuffer) := by
    rw [hf, List.length_drop]
  constructor
  · omega
  · intro h
    refine ⟨hf, by omega, ?_⟩
    rw [getRecentLogs, if_pos (by norm_num [maxLogBuffer])]
    have h200 : (logFold msgs).length = maxLogBuffer := by omega
    rw [h200]
    simp [hf]

/-- C4 witness: 201 appends keep exactly the last 200 entries. -/
theorem C4_log_buffer_bound_witness :
    maxLogBuffer < (List.range 201).length ∧
    logFold (List.range 201) =
      (List.range 201).drop ((List.range 201).length - maxLogBuffer) := by
  have h := (C4_log_buffer_bound (List.range 201)).2
    (by simp [List.length_range, maxLogBuffer])
  exact ⟨by simp [List.length_range, maxLogBuffer], h.1⟩

/-! ### Claim C5 - hash verification failure -/

/-- C5: for every download run whose computed SHA-256 differs
case-insensitively from the supplied expected hash, the task aborts
before extraction (no file was extracted into staging and the archive is
still there), records the integrity failure in `last_error`, and the
derived status is `error` - never `ready_to_restart`; `is_downloading`
is cleared, and nothing in the service retries (a fresh `start_download`
call would be needed). -/
theorem C5_hash_mismatch (st : UpdState) (ch eh : String) (entries : List String)
    (h : strLower ch ≠ strLower eh) :
    (downloadTask st ch (some eh) entries).last_error.isSome = true ∧
    (downloadTask st ch (some eh) entries).is_downloading = false ∧
    (downloadTask st ch (some eh) entries).stagingFiles = [] ∧
    (downloadTask st ch (some eh) entries).stagingHasZip = true ∧
    getUpdateStatus (downloadTask st ch (some eh) entries) = "error" ∧
    getUpdateStatus (downloadTask st ch (some eh) entries) ≠ "ready_to_restart" := by
  have hb : (strLower ch != strLower eh) = true := bne_iff_ne.mpr h
  refine ⟨?_, ?_, ?_, ?_, ?_, ?_⟩ <;>
    simp [downloadTask, getUpdateStatus, hb]

/-- C5 witness: a concrete mismatching digest pair. -/
theorem C5_hash_mismatch_witness :
    strLower "abc" ≠ strLower "abd" ∧
    getUpdateStatus
      (downloadTask ⟨false, 0, none, false, [], false, false⟩ "abc" (some "abd") []) =
      "error" := by
  have h := C5_hash_mismatch ⟨false, 0, none, false, [], false, false⟩ "abc" "abd" []
    (by decide)
  exact ⟨by decide, h.2.2.2.2.1⟩

/-! ### Claims C6 and C7 - restart orchestration outcomes -/

theorem waitResponsiveGo_quiet (env : Nat → ProcPoll) : ∀ fuel n,
    (∀ k, n < k → k ≤ n + fuel → (env k).exited = false ∧ (env k).responsive = false) →
    waitResponsiveGo env n fuel =
      (if (env (n + fuel + 1)).exited then .exhaustedDead else .exhaustedAlive) := by
  intro fuel
  induction fuel with
  | zero => intro n _; simp [waitResponsiveGo]
  | succ fuel ih =>
    intro n h
    have h1 := h (n + 1) (by omega) (by omega)
    rw [waitResponsiveGo]
    simp only [h1.1, h1.2, Bool.false_eq_true, if_false]
    have := ih (n + 1) (fun k hk1 hk2 => h k (by omega) (by omega))
    rw [this]
    have harith : n + 1 + fuel + 1 = n + (fuel + 1) + 1 := by omega
    rw [harith]

theorem waitResponsiveGo_died (env : Nat → ProcPoll) : ∀ fuel n j,
    n < j → j ≤ n + fuel → (env j).exited = true →
    (∀ k, n < k → k < j → (env k).exited = false ∧ (env k).responsive = false) →
    waitResponsiveGo env n fuel = .diedDuringStartup := by
  intro fuel
  induction fuel with
  | zero => intro n j h1 h2 _ _; omega
  | succ fuel ih =>
    intro n j h1 h2 hj hq
    by_cases hje : j = n + 1
    · rw [waitResponsiveGo]
      simp only [hje ▸ hj, if_true]
    · have hq1 := hq (n + 1) (by omega) (by omega)
      rw [waitResponsiveGo]
      simp only [hq1.1, hq1.2, Bool.false_eq_true, if_false]
      exact ih (n + 1) j (by omega) (by omega) hj (fun k hk1 hk2 => hq k (by omega) hk2)

/-- C6: for every restart run whose responsiveness wait (polling every 2
time units for up to 45 time units, i.e. 23 polls) is exhausted with no
responsive probe and no exit, the outcome is decided by the final
aliveness check: still alive is the soft success reported as a warning
(`restart_comfyui` returns true), not alive is failure; and for every run
in which the process exits at some poll during the wait, the outcome is
the "died during startup" failure. -/
theorem C6_wait_outcomes (env : Nat → ProcPoll) (out : String) :
    ((∀ k, 1 ≤ k → k ≤ maxPolls → (env k).exited = false ∧ (env k).responsive = false) →
      restartComfyui true false (some out) env =
        (if (env (maxPolls + 1)).exited then .exhaustedDead else .exhaustedAlive) ∧
      restartSuccess (restartComfyui true false (some out) env) =
        !(env (maxPolls + 1)).exited) ∧
    (∀ j, 1 ≤ j → j ≤ maxPolls → (env j).exited = true →
      (∀ k, 1 ≤ k → k < j → (env k).exited = false ∧ (env k).responsive = false) →
      restartComfyui true false (some out) env = .diedDuringStartup ∧
      restartSuccess (restartComfyui true false (some out) env) = false) := by
  constructor
  · intro h
    have hw := waitResponsiveGo_quiet env maxPolls 0
      (fun k hk1 hk2 => h k (by omega) (by simpa using hk2))
    have hr : restartComfyui true false (some out) env = waitResponsiveGo env 0 maxPolls := by
      simp [restartComfyui, waitResponsive]
    rw [hr, hw]
    simp only [Nat.zero_add]
    refine ⟨trivial, ?_⟩
    cases he : (env (maxPolls + 1)).exited <;> simp [he, restartSuccess]
  · intro j hj1 hj2 hje hq
    have hw := waitResponsiveGo_died env maxPolls 0 j (by omega) (by simpa using hj2)
      hje (fun k hk1 hk2 => hq k (by omega) hk2)
    have hr : restartComfyui true false (some out) env = waitResponsiveGo env 0 maxPolls := by
      simp [restartComfyui, waitResponsive]
    rw [hr, hw]
    exact ⟨rfl, rfl⟩

/-- C6 witness: three concrete environments - never responsive and alive
throughout (soft success), never responsive and found dead at the final
check, and an exit at the second poll (died during startup). -/
theorem C6_wait_outcomes_witness :
    restartComfyui true false (some "") (fun _ => ⟨false, false⟩) = .exhaustedAlive ∧
    restartSuccess (restartComfyui true false (some "") (fun _ => ⟨false, false⟩)) = true ∧
    restartComfyui true false (some "") (fun k => ⟨24 ≤ k, false⟩) = .exhaustedDead ∧
    restartComfyui true false (some "") (fun k => ⟨2 ≤ k, false⟩) = .diedDuringStartup := by
  have hmp : maxPolls = 23 := rfl
  have h1 := (C6_wait_outcomes (fun _ => ⟨false, false⟩) "").1
    (fun k _ _ => ⟨rfl, rfl⟩)
  have h2 := (C6_wait_outcomes (fun k => ⟨24 ≤ k, false⟩) "").1
    (fun k hk1 hk2 => ⟨by
      have hk3 : k ≤ 23 := hmp ▸ hk2
      simp
      omega, rfl⟩)
  have h3 := (C6_wait_outcomes (fun k => ⟨2 ≤ k, false⟩) "").2 2 (by decide) (by decide)
    (by simp) (fun k hk1 hk2 => ⟨by simp; omega, rfl⟩)
  refine ⟨h1.1.trans (by decide), ?_, h2.1.trans (by decide), h3.1⟩
  rw [h1.2]
  decide

/-- C7: for every restart run whose freshly started process has a non-null
exit code within the 2-time-unit settle window, the restart terminates
with the "process exited immediately" failure (`restart_comfyui` returns
false) and the last 500 characters of the worker's redirected output log
are captured into the failure diagnostics (an empty log is reported by a
dedicated "output log is empty" diagnostic). -/
theorem C7_settle_exit (out : String) (env : Nat → ProcPoll) :
    restartComfyui true true (some out) env =
      .exitedImmediately
        (if out = "" then .emptyLog else .tail (strTakeRight 500 out)) ∧
    restartSuccess (restartComfyui true true (some out) env) = false := by
  constructor
  · simp [restartComfyui, settleDiag]
  · simp [restartComfyui, settleDiag, restartSuccess]

/-! ### Claim C8 - dual-protocol connection handling -/

/-- C8: with a TLS certificate/key pair configured, a connection whose
first peeked byte is `0x16` gets a TLS server handshake (and falls back to
plaintext, not a crash, when the handshake fails), while any other first
byte is served plaintext with no handshake attempt; with no certificate
configured every connection is plaintext and the peek is skipped
entirely. -/
theorem C8_dual_protocol (peek : List Nat) (hsOk : Bool) :
    getRequest false peek hsOk = ⟨false, false, false⟩ ∧
    (∀ rest, peek = 0x16 :: rest →
      getRequest true peek hsOk = ⟨true, true, hsOk⟩) ∧
    (∀ b rest, peek = b :: rest → b ≠ 0x16 →
      getRequest true peek hsOk = ⟨true, false, false⟩) := by
  refine ⟨rfl, ?_, ?_⟩
  · intro rest hpeek
    subst hpeek
    cases hsOk <;> simp [getRequest]
  · intro b rest hpeek hb
    subst hpeek
    simp [getRequest, hb]

/-- C8 witness: a TLS-handshake first byte with a failing handshake falls
back to plaintext; a non-TLS first byte is served without a handshake
attempt; without a context no peek happens. -/
theorem C8_dual_protocol_witness :
    getRequest false [0x16] true = ⟨false, false, false⟩ ∧
    getRequest true [0x16, 3, 1] false = ⟨true, true, false⟩ ∧
    getRequest true [0x47, 0x45] true = ⟨true, false, false⟩ := by
  refine ⟨(C8_dual_protocol [0x16] true).1,
    (C8_dual_protocol [0x16, 3, 1] false).2.1 [3, 1] rfl,
    (C8_dual_protocol [0x47, 0x45] true).2.2 0x47 [0x45] rfl (by decide)⟩

/-! ### Claim C9 - derived update status -/

/-- C9: the claim is FALSE as stated: a populated staging directory that
still contains the residual `update.zip` archive - with no error recorded
and no download in progress - is not one of the claim's three non-idle
cases, so the claim requires `idle`; the code reports `downloading` for
it. -/
theorem C9_residual_zip_counterexample :
    (UpdState.mk false 0 none true [] true false).last_error = none ∧
    (UpdState.mk false 0 none true [] true false).is_downloading = false ∧
    ¬(stagingNonempty (UpdState.mk false 0 none true [] true false) = true ∧
      (UpdState.mk false 0 none true [] true false).stagingHasZip = false) ∧
    getUpdateStatus (UpdState.mk false 0 none true [] true false) = "downloading" ∧
    getUpdateStatus (UpdState.mk false 0 none true [] true false) ≠ "idle" := by
  refine ⟨rfl, rfl, by decide, by decide, by decide⟩

/-- C9 (amended): `get_update_status` derives exactly one status with this
precedence: a non-empty error field reports `error`; else an in-progress
download reports `downloading`; else a populated staging directory
reports `ready_to_restart` when it holds no residual archive file and
`downloading` when the residual archive is still present; only with an
absent or empty staging directory does it report `idle`. -/
theorem C9_status_precedence (st : UpdState) :
    (st.last_error.isSome = true → getUpdateStatus st = "error") ∧
    (st.last_error = none → st.is_downloading = true →
      getUpdateStatus st = "downloading") ∧
    (st.last_error = none → st.is_downloading = false →
      stagingNonempty st = true → st.stagingHasZip = false →
      getUpdateStatus st = "ready_to_restart") ∧
    (st.last_error = none → st.is_downloading = false →
      stagingNonempty st = true → st.stagingHasZip = true →
      getUpdateStatus st = "downloading") ∧
    (st.last_error = none → st.is_downloading = false →
      stagingNonempty st = false → getUpdateStatus st = "idle") := by
  refine ⟨?_, ?_, ?_, ?_, ?_⟩
  · intro h1
    simp [getUpdateStatus, h1]
  · intro h1 h2
    simp [getUpdateStatus, h1, h2]
  · intro h1 h2 h3 h4
    simp [getUpdateStatus, h1, h2, h3, h4]
  · intro h1 h2 h3 h4
    simp [getUpdateStatus, h1, h2, h3, h4]
  · intro h1 h2 h3
    simp [getUpdateStatus, h1, h2, h3]

/-- C9 witness: each precedence case at a concrete state. -/
theorem C9_status_precedence_witness :
    getUpdateStatus ⟨true, 10, some "boom", true, [], true, false⟩ = "error" ∧
    getUpdateStatus ⟨true, 10, none, true, [], true, false⟩ = "downloading" ∧
    getUpdateStatus ⟨false, 100, none, true, [["a"]], false, false⟩ = "ready_to_restart" ∧
    getUpdateStatus ⟨false, 0, none, false, [], false, false⟩ = "idle" := by
  refine ⟨(C9_status_precedence ⟨true, 10, some "boom", true, [], true, false⟩).1 rfl,
    (C9_status_precedence ⟨true, 10, none, true, [], true, false⟩).2.1 rfl rfl,
    (C9_status_precedence ⟨false, 100, none, true, [["a"]], false, false⟩).2.2.1 rfl rfl
      (by decide) rfl,
    (C9_status_precedence ⟨false, 0, none, false, [], false, false⟩).2.2.2.2 rfl rfl
      (by decide)⟩

/-! ### Claim C10 - per-level counter accounting -/

theorem logStatsUpdate_sum (s : LogStats) (level : String) :
    counterSum (logStatsUpdate s level) = counterSum s + 1 := by
  rw [logStatsUpdate]
  split_ifs <;> simp [counterSum] <;> omega

theorem counterSum_foldl (levels : List String) : ∀ s : LogStats,
    counterSum (levels.foldl logStatsUpdate s) = counterSum s + levels.length := by
  induction levels with
  | nil => intro s; simp
  | cons l ls ih =>
    intro s
    rw [List.foldl_cons, ih, logStatsUpdate_sum]
    simp
    omega

/-- C10: every `log` call increments exactly one per-level counter (the
update is one of the five single-field increments, and the counter sum
grows by exactly one); a level outside the fixed key set - including the
`api` and `restart` levels used by the restart and control-API paths -
increments the `info` counter; consequently the sum of the per-level
counters returned by the logs endpoint equals the total number of entries
ever logged. -/
theorem C10_counter_accounting (levels : List String) (level : String) (s : LogStats) :
    counterSum (logStatsUpdate s level) = counterSum s + 1 ∧
    (logStatsUpdate s level = { s with info := s.info + 1 } ∨
     logStatsUpdate s level = { s with warning := s.warning + 1 } ∨
     logStatsUpdate s level = { s with error := s.error + 1 } ∨
     logStatsUpdate s level = { s with success := s.success + 1 } ∨
     logStatsUpdate s level = { s with debug := s.debug + 1 }) ∧
    (level ∉ logStatsKeys → logStatsUpdate s level = { s with info := s.info + 1 }) ∧
    counterSum (foldStats levels) = levels.length := by
  refine ⟨logStatsUpdate_sum s level, ?_, ?_, ?_⟩
  · rw [logStatsUpdate]
    split_ifs <;> simp
  · intro h
    simp [logStatsKeys] at h
    simp [logStatsUpdate, h.1, h.2.1, h.2.2.1, h.2.2.2.1, h.2.2.2.2]
  · rw [foldStats, counterSum_foldl]
    simp [initLogStats, counterSum]

/-- C10 witness: the `api` and `restart` levels are outside the key set
and land on the `info` counter; a concrete mixed sequence sums to its
length. -/
theorem C10_counter_accounting_witness :
    "api" ∉ logStatsKeys ∧
    logStatsUpdate initLogStats "api" = { initLogStats with info := 1 } ∧
    "restart" ∉ logStatsKeys ∧
    logStatsUpdate initLogStats "restart" = { initLogStats with info := 1 } ∧
    counterSum (foldStats ["info", "api", "restart", "error", "debug"]) = 5 := by
  refine ⟨by decide, ?_, by decide, ?_, ?_⟩
  · exact (C10_counter_accounting [] "api" initLogStats).2.2.1 (by decide)
  · exact (C10_counter_accounting [] "restart" initLogStats).2.2.1 (by decide)
  · exact (C10_counter_accounting ["info", "api", "restart", "error", "debug"]
      "info" initLogStats).2.2.2

end ComfyLauncher
